import Mathlib

/-!
Verification of the DC-Detector link bridge (`src/lora_service.py` and
`src/mavlink_service.py`).

The Python source is shallowly embedded: wire lines are lists of
characters, the shared mutable module state is an explicit record, and
each thread's loop body becomes a pure step function on that record.
All machine text is ASCII.
-/

namespace DCBridge

/-- Wire text is modelled as a list of characters. -/
abbrev Str : Type := List Char

/-- Coerce a Lean string literal into the character-list model. -/
def strL (s : String) : Str := s.toList

/-- Python `str.strip()` on ASCII whitespace. -/
def pyStrip (s : Str) : Str :=
  ((s.dropWhile Char.isWhitespace).reverse.dropWhile Char.isWhitespace).reverse

/-- Python `needle in hay` substring membership. -/
def containsSub (needle : Str) : Str → Bool
  | [] => needle.isPrefixOf []
  | c :: rest => needle.isPrefixOf (c :: rest) || containsSub needle rest

/-- Python `s.split(sep)` for a one-character separator; the result is never empty. -/
def splitOnChar (sep : Char) : Str → List Str
  | [] => [[]]
  | c :: rest =>
    match splitOnChar sep rest with
    | [] => [[]]
    | seg :: segs => if c = sep then [] :: seg :: segs else (c :: seg) :: segs

/-- Fuel-indexed worker for Python `s.split(sep)` with a multi-character
separator; fuel `s.length + 1` always suffices for a nonempty separator. -/
def splitOnSeqGo (sep : Str) : Nat → Str → Str → List Str
  | 0, acc, rest => [acc.reverse ++ rest]
  | _ + 1, acc, [] => [acc.reverse]
  | fuel + 1, acc, c :: rest =>
    if sep.isPrefixOf (c :: rest) then
      acc.reverse :: splitOnSeqGo sep fuel [] ((c :: rest).drop sep.length)
    else
      splitOnSeqGo sep fuel (c :: acc) rest

/-- Python `s.split(sep)` for a multi-character separator. -/
def splitOnSeq (sep s : Str) : List Str := splitOnSeqGo sep (s.length + 1) [] s

/-- Worker for Python `s.split()`: split on whitespace runs, dropping empties. -/
def pyWordsGo : Str → Str → List Str
  | [], acc => if acc.isEmpty then [] else [acc.reverse]
  | c :: rest, acc =>
    if c.isWhitespace then
      if acc.isEmpty then pyWordsGo rest [] else acc.reverse :: pyWordsGo rest []
    else pyWordsGo rest (c :: acc)

/-- Python `s.split()` with no separator argument. -/
def pyWords (s : Str) : List Str := pyWordsGo s []

/-- The ten ASCII decimal digit characters. -/
def isDigitCh (c : Char) : Bool :=
  c == '0' || c == '1' || c == '2' || c == '3' || c == '4' ||
  c == '5' || c == '6' || c == '7' || c == '8' || c == '9'

/-- Numeric value of an ASCII digit character. -/
def charVal (c : Char) : Nat := c.toNat - 48

/-- The ASCII digit character for a value below ten. -/
def digitCh (k : Nat) : Char :=
  match k with
  | 0 => '0'
  | 1 => '1'
  | 2 => '2'
  | 3 => '3'
  | 4 => '4'
  | 5 => '5'
  | 6 => '6'
  | 7 => '7'
  | 8 => '8'
  | _ => '9'

/-- Fuel-indexed decimal rendering of a natural number; fuel `n + 1` suffices. -/
def natToCharsGo : Nat → Nat → Str
  | 0, _ => []
  | fuel + 1, n =>
    if n < 10 then [digitCh n]
    else natToCharsGo fuel (n / 10) ++ [digitCh (n % 10)]

/-- Python `str(n)` for a natural number. -/
def natToChars (n : Nat) : Str := natToCharsGo (n + 1) n

/-- Python `str(i)` for an integer. -/
def intToChars (i : Int) : Str :=
  if i < 0 then '-' :: natToChars i.natAbs else natToChars i.natAbs

/-- Value of a most-significant-first decimal digit string. -/
def digitsVal (s : Str) : Nat := s.foldl (fun a c => a * 10 + charVal c) 0

/-- Parse a nonempty all-digit string (the integer syntax the wire format emits). -/
def parseNat (s : Str) : Option Nat :=
  if s ≠ [] ∧ s.all isDigitCh then some (digitsVal s) else none

/-- Parse an optionally signed decimal integer. -/
def parseInt (s : Str) : Option Int :=
  if s.head? = some '-' then (parseNat (s.drop 1)).map (fun n => -(n : Int))
  else if s.head? = some '+' then (parseNat (s.drop 1)).map (fun n => (n : Int))
  else (parseNat s).map (fun n => (n : Int))

/-- Left-pad a string with `'0'` to width `d`. -/
def padZeros (d : Nat) (s : Str) : Str := List.replicate (d - s.length) '0' ++ s

/-- Fixed-point rendering of `n` counted in units of `10 ^ d`, with exactly `d`
decimals; no decimal point when `d = 0`.  This is the exact-decimal content of
Python `f-string` formatting with `.df`. -/
def formatFixedNat (n d : Nat) : Str :=
  if d = 0 then natToChars n
  else natToChars (n / 10 ^ d) ++ '.' :: padZeros d (natToChars (n % 10 ^ d))

/-- Signed fixed-point rendering; `q` counts units of `10 ^ d`. -/
def formatFixed (q : Int) (d : Nat) : Str :=
  if q < 0 then '-' :: formatFixedNat q.natAbs d else formatFixedNat q.natAbs d

/-- Modelled from the spec: nonnegative fixed-point field decoder of the ground
station (the decoding side of the wire format is not part of this repository). -/
def parseFixedNat (d : Nat) (s : Str) : Option Nat :=
  if d = 0 then parseNat s
  else
    match splitOnChar '.' s with
    | [ip, fp] =>
      if fp.length = d then
        match parseNat ip, parseNat fp with
        | some i, some f => some (i * 10 ^ d + f)
        | _, _ => none
      else none
    | _ => none

/-- Modelled from the spec: signed fixed-point field decoder of the ground station. -/
def parseFixed (d : Nat) (s : Str) : Option Int :=
  if s.head? = some '-' then (parseFixedNat d (s.drop 1)).map (fun n => -(n : Int))
  else (parseFixedNat d s).map (fun n => (n : Int))

/-! Digit and decimal-rendering lemmas. -/

theorem digitCh_spec (k : Nat) (hk : k < 10) :
    isDigitCh (digitCh k) = true ∧ charVal (digitCh k) = k := by
  interval_cases k <;> exact ⟨by decide, by decide⟩

theorem digit_ne_punct {c : Char} (h : isDigitCh c = true) :
    c ≠ ',' ∧ c ≠ '.' ∧ c ≠ '-' ∧ c ≠ '+' ∧ c ≠ ':' := by
  have hd : c = '0' ∨ c = '1' ∨ c = '2' ∨ c = '3' ∨ c = '4' ∨
      c = '5' ∨ c = '6' ∨ c = '7' ∨ c = '8' ∨ c = '9' := by
    simp only [isDigitCh, Bool.or_eq_true, beq_iff_eq] at h
    tauto
  rcases hd with rfl | rfl | rfl | rfl | rfl | rfl | rfl | rfl | rfl | rfl <;>
    exact ⟨by decide, by decide, by decide, by decide, by decide⟩

theorem natToCharsGo_length (fuel n : Nat) : (natToCharsGo fuel n).length ≤ fuel := by
  induction fuel generalizing n with
  | zero => simp [natToCharsGo]
  | succ f ih =>
    by_cases hn : n < 10
    · simp [natToCharsGo, hn]
    · have := ih (n / 10)
      simp only [natToCharsGo, if_neg hn, List.length_append, List.length_cons,
        List.length_nil]
      omega

theorem natToCharsGo_ne_nil (fuel n : Nat) (h : 0 < fuel) : natToCharsGo fuel n ≠ [] := by
  cases fuel with
  | zero => omega
  | succ f =>
    by_cases hn : n < 10
    · simp [natToCharsGo, hn]
    · simp [natToCharsGo, hn]

theorem natToCharsGo_all (fuel n : Nat) : (natToCharsGo fuel n).all isDigitCh = true := by
  induction fuel generalizing n with
  | zero => rfl
  | succ f ih =>
    by_cases hn : n < 10
    · simp [natToCharsGo, hn, (digitCh_spec n hn).1]
    · simp [natToCharsGo, hn, List.all_append, ih,
        (digitCh_spec (n % 10) (Nat.mod_lt _ (by omega))).1]

theorem digitsVal_append_one (a : Str) (c : Char) :
    digitsVal (a ++ [c]) = digitsVal a * 10 + charVal c := by
  simp [digitsVal, List.foldl_append]

theorem natToCharsGo_val (fuel n : Nat) (h : n < 10 ^ fuel) :
    digitsVal (natToCharsGo fuel n) = n := by
  induction fuel generalizing n with
  | zero =>
    have : n = 0 := by simpa using h
    subst this; rfl
  | succ f ih =>
    by_cases hn : n < 10
    · simp [natToCharsGo, hn, digitsVal, (digitCh_spec n hn).2]
    · have h1 : n / 10 < 10 ^ f := by
        rw [Nat.div_lt_iff_lt_mul (by norm_num)]
        calc n < 10 ^ (f + 1) := h
          _ = 10 ^ f * 10 := by ring
      simp only [natToCharsGo, if_neg hn, digitsVal_append_one, ih (n / 10) h1,
        (digitCh_spec (n % 10) (Nat.mod_lt _ (by omega))).2]
      omega

theorem natToCharsGo_congr (f1 : Nat) : ∀ f2 n : Nat, n < 10 ^ f1 → n < 10 ^ f2 →
    0 < f1 → 0 < f2 → natToCharsGo f1 n = natToCharsGo f2 n := by
  induction f1 with
  | zero => omega
  | succ f ih =>
    intro f2 n h1 h2 p1 p2
    cases f2 with
    | zero => omega
    | succ g =>
      by_cases hn : n < 10
      · simp [natToCharsGo, hn]
      · have hf : 0 < f := by
          rcases Nat.eq_zero_or_pos f with h0 | h0
          · subst h0
            have he : (10 : ℕ) ^ (0 + 1) = 10 := by norm_num
            omega
          · exact h0
        have hg : 0 < g := by
          rcases Nat.eq_zero_or_pos g with h0 | h0
          · subst h0
            have he : (10 : ℕ) ^ (0 + 1) = 10 := by norm_num
            omega
          · exact h0
        have hdf : n / 10 < 10 ^ f := by
          rw [Nat.div_lt_iff_lt_mul (by norm_num)]
          calc n < 10 ^ (f + 1) := h1
            _ = 10 ^ f * 10 := by ring
        have hdg : n / 10 < 10 ^ g := by
          rw [Nat.div_lt_iff_lt_mul (by norm_num)]
          calc n < 10 ^ (g + 1) := h2
            _ = 10 ^ g * 10 := by ring
        simp only [natToCharsGo, if_neg hn, ih g (n / 10) hdf hdg hf hg]

theorem lt_ten_pow_succ (n : Nat) : n < 10 ^ (n + 1) := by
  induction n with
  | zero => norm_num
  | succ k ih =>
    have h1 : (10 : ℕ) ^ (k + 2) = 10 ^ (k + 1) * 10 := by ring
    have h2 : 0 < (10 : ℕ) ^ (k + 1) := pow_pos (by norm_num) (k + 1)
    omega

theorem natToChars_spec (n : Nat) :
    natToChars n ≠ [] ∧ (natToChars n).all isDigitCh = true ∧
      digitsVal (natToChars n) = n :=
  ⟨natToCharsGo_ne_nil _ _ (by omega), natToCharsGo_all _ _,
    natToCharsGo_val _ _ (lt_ten_pow_succ n)⟩

theorem parseNat_natToChars (n : Nat) : parseNat (natToChars n) = some n := by
  obtain ⟨h1, h2, h3⟩ := natToChars_spec n
  simp [parseNat, h1, h2, h3]

theorem natToChars_length_le (n d : Nat) (hd : 0 < d) (h : n < 10 ^ d) :
    (natToChars n).length ≤ d := by
  rw [natToChars, natToCharsGo_congr (n + 1) d n (lt_ten_pow_succ n) h (by omega) hd]
  exact natToCharsGo_length d n

theorem mem_all_digit {s : Str} (h : s.all isDigitCh = true) {c : Char} (hc : c ∈ s) :
    isDigitCh c = true := by
  rw [List.all_eq_true] at h
  exact h c hc

theorem digitsVal_replicate_zero (k : Nat) (s : Str) :
    digitsVal (List.replicate k '0' ++ s) = digitsVal s := by
  induction k with
  | zero => simp
  | succ k ih =>
    have h0 : 0 * 10 + charVal '0' = 0 := by decide
    simpa [digitsVal, List.replicate_succ, List.foldl_cons, h0] using ih

/-! Split and fixed-point round-trip lemmas. -/

theorem splitOnChar_ne_nil (sep : Char) (s : Str) : splitOnChar sep s ≠ [] := by
  cases s with
  | nil => simp [splitOnChar]
  | cons c rest =>
    simp only [splitOnChar]
    cases h : splitOnChar sep rest with
    | nil => simp
    | cons seg segs => by_cases hc : c = sep <;> simp [hc]

theorem splitOnChar_of_not_mem (sep : Char) (s : Str) (h : ∀ c ∈ s, c ≠ sep) :
    splitOnChar sep s = [s] := by
  induction s with
  | nil => rfl
  | cons c rest ih =>
    have hr : splitOnChar sep rest = [rest] :=
      ih (fun x hx => h x (List.mem_cons_of_mem _ hx))
    have hc : ¬ (c = sep) := h c (List.mem_cons_self _ _)
    simp [splitOnChar, hr, hc]

theorem splitOnChar_append (sep : Char) (a b : Str) (h : ∀ c ∈ a, c ≠ sep) :
    splitOnChar sep (a ++ sep :: b) = a :: splitOnChar sep b := by
  induction a with
  | nil =>
    cases hb : splitOnChar sep b with
    | nil => exact absurd hb (splitOnChar_ne_nil _ _)
    | cons seg segs => simp [splitOnChar, hb]
  | cons c a' ih =>
    have hr := ih (fun x hx => h x (List.mem_cons_of_mem _ hx))
    have hc : ¬ (c = sep) := h c (List.mem_cons_self _ _)
    have hstep : splitOnChar sep ((c :: a') ++ sep :: b) =
        match splitOnChar sep (a' ++ sep :: b) with
        | [] => [[]]
        | seg :: segs => if c = sep then [] :: seg :: segs else (c :: seg) :: segs := rfl
    rw [hstep, hr]
    simp [hc]

theorem mem_padZeros_digit {d : Nat} {s : Str} (hs : s.all isDigitCh = true)
    {c : Char} (hc : c ∈ padZeros d s) : isDigitCh c = true := by
  rcases List.mem_append.mp hc with h | h
  · rw [List.eq_of_mem_replicate h]; decide
  · exact mem_all_digit hs h

theorem parseNat_padZeros (d f : Nat) (hd : 0 < d) (hf : f < 10 ^ d) :
    parseNat (padZeros d (natToChars f)) = some f ∧
      (padZeros d (natToChars f)).length = d := by
  obtain ⟨h1, h2, h3⟩ := natToChars_spec f
  refine ⟨?_, ?_⟩
  · have hall : (padZeros d (natToChars f)).all isDigitCh = true := by
      rw [List.all_eq_true]
      intro c hc
      exact mem_padZeros_digit h2 hc
    have hne : padZeros d (natToChars f) ≠ [] := by
      simp only [padZeros]
      intro hcon
      exact h1 (List.append_eq_nil.mp hcon).2
    have hval : digitsVal (padZeros d (natToChars f)) = f := by
      rw [padZeros, digitsVal_replicate_zero, h3]
    simp [parseNat, hne, hall, hval]
  · have := natToChars_length_le f d hd hf
    simp only [padZeros, List.length_append, List.length_replicate]
    omega

theorem formatFixedNat_head_digit (n d : Nat) :
    ∃ c t, formatFixedNat n d = c :: t ∧ isDigitCh c = true := by
  obtain ⟨h1, h2, _⟩ := natToChars_spec n
  obtain ⟨h1q, h2q, _⟩ := natToChars_spec (n / 10 ^ d)
  by_cases hd : d = 0
  · subst hd
    cases he : natToChars n with
    | nil => exact absurd he h1
    | cons c t =>
      refine ⟨c, t, by simp [formatFixedNat, he], ?_⟩
      exact mem_all_digit h2 (he ▸ List.mem_cons_self c t)
  · cases he : natToChars (n / 10 ^ d) with
    | nil => exact absurd he h1q
    | cons c t =>
      refine ⟨c, t ++ '.' :: padZeros d (natToChars (n % 10 ^ d)), ?_, ?_⟩
      · simp [formatFixedNat, hd, he]
      · exact mem_all_digit h2q (he ▸ List.mem_cons_self c t)

theorem parseFixedNat_roundtrip (d n : Nat) :
    parseFixedNat d (formatFixedNat n d) = some n := by
  by_cases hd : d = 0
  · subst hd
    simp [parseFixedNat, formatFixedNat, parseNat_natToChars]
  · have hdpos : 0 < d := Nat.pos_of_ne_zero hd
    have hmod : n % 10 ^ d < 10 ^ d := Nat.mod_lt _ (pow_pos (by norm_num) d)
    obtain ⟨hp, hlen⟩ := parseNat_padZeros d (n % 10 ^ d) hdpos hmod
    have hsplit : splitOnChar '.' (formatFixedNat n d) =
        [natToChars (n / 10 ^ d), padZeros d (natToChars (n % 10 ^ d))] := by
      rw [formatFixedNat, if_neg hd]
      rw [splitOnChar_append '.' _ _ ?hdig]
      · rw [splitOnChar_of_not_mem '.' _ ?hpad]
        case hpad =>
          intro c hc
          exact (digit_ne_punct (mem_padZeros_digit (natToChars_spec _).2.1 hc)).2.1
      case hdig =>
        intro c hc
        exact (digit_ne_punct (mem_all_digit (natToChars_spec _).2.1 hc)).2.1
    simp only [parseFixedNat, if_neg hd, hsplit, hlen, parseNat_natToChars, hp]
    have hdm : n / 10 ^ d * 10 ^ d + n % 10 ^ d = n := by
      rw [Nat.mul_comm]
      exact Nat.div_add_mod n (10 ^ d)
    simp [hdm]

theorem parseFixed_formatFixed (q : Int) (d : Nat) :
    parseFixed d (formatFixed q d) = some q := by
  obtain ⟨c, t, he, hdg⟩ := formatFixedNat_head_digit q.natAbs d
  by_cases hq : q < 0
  · have habs : -((q.natAbs : Nat) : Int) = q := by omega
    have hhead : (formatFixed q d).head? = some '-' := by
      simp [formatFixed, if_pos hq]
    have hdrop : (formatFixed q d).drop 1 = formatFixedNat q.natAbs d := by
      simp [formatFixed, if_pos hq]
    simp only [parseFixed, hhead, if_pos rfl]
    rw [hdrop, parseFixedNat_roundtrip]
    show some (-((q.natAbs : Nat) : Int)) = some q
    rw [habs]
  · have habs : ((q.natAbs : Nat) : Int) = q := by omega
    have hfmt : formatFixed q d = formatFixedNat q.natAbs d := by
      simp [formatFixed, if_neg hq]
    have hne : ¬ ((formatFixedNat q.natAbs d).head? = some '-') := by
      rw [he]
      simp only [List.head?_cons, Option.some.injEq]
      intro hcon
      exact (digit_ne_punct hdg).2.2.1 hcon
    rw [hfmt]
    simp only [parseFixed, if_neg hne, parseFixedNat_roundtrip]
    show some ((q.natAbs : Nat) : Int) = some q
    rw [habs]

theorem intToChars_head_digit (i : Int) (h : ¬ i < 0) :
    ∃ c t, intToChars i = c :: t ∧ isDigitCh c = true := by
  obtain ⟨h1, h2, _⟩ := natToChars_spec i.natAbs
  cases he : natToChars i.natAbs with
  | nil => exact absurd he h1
  | cons c t =>
    exact ⟨c, t, by simp [intToChars, h, he],
      mem_all_digit h2 (he ▸ List.mem_cons_self c t)⟩

theorem parseInt_intToChars (i : Int) : parseInt (intToChars i) = some i := by
  by_cases hi : i < 0
  · have habs : -((i.natAbs : Nat) : Int) = i := by omega
    have hhead : (intToChars i).head? = some '-' := by simp [intToChars, if_pos hi]
    have hdrop : (intToChars i).drop 1 = natToChars i.natAbs := by
      simp [intToChars, if_pos hi]
    simp only [parseInt, hhead, if_pos rfl]
    rw [hdrop, parseNat_natToChars]
    show some (-((i.natAbs : Nat) : Int)) = some i
    rw [habs]
  · obtain ⟨c, t, he, hdg⟩ := intToChars_head_digit i hi
    have habs : ((i.natAbs : Nat) : Int) = i := by omega
    have hi2 : intToChars i = natToChars i.natAbs := by simp [intToChars, if_neg hi]
    rw [hi2] at he
    have hne : ¬ ((natToChars i.natAbs).head? = some '-') := by
      rw [he]
      simp only [List.head?_cons, Option.some.injEq]
      intro hcon
      exact (digit_ne_punct hdg).2.2.1 hcon
    have hne2 : ¬ ((natToChars i.natAbs).head? = some '+') := by
      rw [he]
      simp only [List.head?_cons, Option.some.injEq]
      intro hcon
      exact (digit_ne_punct hdg).2.2.2.1 hcon
    rw [hi2]
    simp only [parseInt, if_neg hne, if_neg hne2, parseNat_natToChars]
    show some ((i.natAbs : Nat) : Int) = some i
    rw [habs]

theorem formatFixed_no_comma (q : Int) (d : Nat) : ∀ c ∈ formatFixed q d, c ≠ ',' := by
  intro c hc
  have hcore : ∀ x ∈ formatFixedNat q.natAbs d, x ≠ ',' := by
    intro x hx
    by_cases hd : d = 0
    · subst hd
      simp only [formatFixedNat, if_pos rfl] at hx
      exact (digit_ne_punct (mem_all_digit (natToChars_spec _).2.1 hx)).1
    · simp only [formatFixedNat, if_neg hd] at hx
      rcases List.mem_append.mp hx with h | h
      · exact (digit_ne_punct (mem_all_digit (natToChars_spec _).2.1 h)).1
      · rcases List.mem_cons.mp h with h | h
        · subst h; decide
        · exact (digit_ne_punct (mem_padZeros_digit (natToChars_spec _).2.1 h)).1
  by_cases hq : q < 0
  · simp only [formatFixed, if_pos hq] at hc
    rcases List.mem_cons.mp hc with h | h
    · subst h; decide
    · exact hcore c h
  · simp only [formatFixed, if_neg hq] at hc
    exact hcore c hc

theorem intToChars_no_comma (i : Int) : ∀ c ∈ intToChars i, c ≠ ',' := by
  intro c hc
  by_cases hi : i < 0
  · simp only [intToChars, if_pos hi] at hc
    rcases List.mem_cons.mp hc with h | h
    · subst h; decide
    · exact (digit_ne_punct (mem_all_digit (natToChars_spec _).2.1 h)).1
  · simp only [intToChars, if_neg hi] at hc
    exact (digit_ne_punct (mem_all_digit (natToChars_spec _).2.1 hc)).1

/-! Data model of `lora_service.py`: message log, classifier, serial-loop step. -/

/-- Markers of `_serial_loop` (`lora_service.py`, lines 143-164). -/
def telMarker : Str := strL "TEL:"

def cmdMarker : Str := strL "CMD:"

def apMarker : Str := strL "AP:"

def rssiMarker : Str := strL "RSSI:"

/-- Tagged type of a received message: `msg["type"]` in `_serial_loop`.  A
generic line receives no tag in the source (`type? = none`). -/
inductive MsgType where
  | telemetryRx
  | command
  | apInfo
  deriving DecidableEq

/-- One entry of the message log (`msg` dict in `_serial_loop`): raw line,
optional type tag, optional parsed RSSI value. -/
structure RxMsg where
  data : Str
  type? : Option MsgType
  rssi : Option Int
  deriving DecidableEq

/-- Capacity of the bounded message log (`_MAX_MSG = 1000`). -/
def MAX_MSG : Nat := 1000

/-- Append with overflow eviction (`_serial_loop`, lines 166-169): append, and
when the length exceeds `_MAX_MSG` delete the oldest `_MAX_MSG // 2` entries in
one step (`del _messages[: _MAX_MSG // 2]`). -/
def appendMessage {α : Type} (msgs : List α) (m : α) : List α :=
  let msgs' := msgs ++ [m]
  if MAX_MSG < msgs'.length then msgs'.drop (MAX_MSG / 2) else msgs'

/-- The `/messages` endpoint returns `_messages[-100:]` (`get_messages`). -/
def getMessages {α : Type} (msgs : List α) : List α :=
  msgs.drop (msgs.length - 100)

/-- Opportunistic RSSI extraction (`_serial_loop`, lines 143-148):
`int(line.split("RSSI:")[-1].strip().split()[0])`, with parse failures
swallowed.  The integer model accepts an optional sign followed by ASCII
digits, the syntax the firmware emits. -/
def rssiOf (line : Str) : Option Int :=
  if containsSub rssiMarker line then
    match pyWords (pyStrip ((splitOnSeq rssiMarker line).getLastD [])) with
    | tok :: _ => parseInt tok
    | [] => none
  else none

/-- Type tagging of `_serial_loop` (lines 151-159), in source order: a line
containing `"TEL:"` anywhere, else a line starting with `"CMD:"`, else a line
starting with `"AP:"`, else no tag. -/
def msgTypeOf (line : Str) : Option MsgType :=
  if containsSub telMarker line then some MsgType.telemetryRx
  else if cmdMarker.isPrefixOf line then some MsgType.command
  else if apMarker.isPrefixOf line then some MsgType.apInfo
  else none

/-- The classified message appended to the log for a received line. -/
def classifyMsg (line : Str) : RxMsg :=
  { data := line, type? := msgTypeOf line, rssi := rssiOf line }

/-- The stripped command handed to `_handle_command` (line 156:
`cmd = line[4:].strip()`), for lines classified `command`. -/
def dispatchOf (line : Str) : Option Str :=
  if msgTypeOf line = some MsgType.command then some (pyStrip (line.drop 4))
  else none

/-- The AP credentials written by an `ap_info` line (lines 160-163:
`parts = line[3:].split(",")`, requiring at least two parts). -/
def credsOf (line : Str) : Option (Str × Str) :=
  if msgTypeOf line = some MsgType.apInfo then
    match splitOnChar ',' (line.drop 3) with
    | p0 :: p1 :: _ => some (p0, p1)
    | _ => none
  else none

/-- Observable steps taken by the serial loop while handling one line. -/
inductive Event where
  | dispatchCmd (cmd : Str)
  | setCreds (ssid password : Str)
  | logAppend (m : RxMsg)
  deriving DecidableEq

/-- Event trace of `_serial_loop` for one handled (nonempty) line, in source
order: classification side effects (command dispatch at line 157, credential
write at lines 162-163) happen first, and the log append (lines 166-169)
happens last. -/
def processLine (line : Str) : List Event :=
  (match dispatchOf line with
   | some cmd => [Event.dispatchCmd cmd]
   | none => []) ++
  (match credsOf line with
   | some (ssid, pw) => [Event.setCreds ssid pw]
   | none => []) ++
  [Event.logAppend (classifyMsg line)]

/-- Shared mutable state of the bridge (module globals of `lora_service.py`):
the serial connection flag, the message log, the cached AP credentials, and
the ESP32 Wi-Fi association state. -/
structure ServiceState where
  connected : Bool
  messages : List RxMsg
  apSsid : Str
  apPassword : Str
  wifiConnected : Bool
  wifiSsid : Str
  wifiIp : Str
  deriving DecidableEq

/-- Effect of one serial-loop event on the shared state.  Command dispatch
(`_handle_command`) only performs HTTP calls to collaborators and never
touches the bridge state. -/
def applyEvent (st : ServiceState) : Event → ServiceState
  | Event.dispatchCmd _ => st
  | Event.setCreds ssid pw => { st with apSsid := ssid, apPassword := pw }
  | Event.logAppend m => { st with messages := appendMessage st.messages m }

/-- One outcome of the serial read attempt in `_serial_loop`'s inner loop. -/
inductive ReadOutcome where
  | noData
  | emptyLine
  | line (s : Str)
  | readError
  deriving DecidableEq

/-- One iteration of `_serial_loop`'s established-connection loop (lines
131-176).  A read error is logged and slept on (lines 174-176); the state,
including the connected flag, is not touched. -/
def serialIter (st : ServiceState) : ReadOutcome → ServiceState
  | ReadOutcome.noData => st
  | ReadOutcome.emptyLine => st
  | ReadOutcome.line s => (processLine s).foldl applyEvent st
  | ReadOutcome.readError => st

/-! Command dispatcher (`_handle_command`, lines 241-277). -/

/-- One HTTP collaborator call made by the dispatcher. -/
inductive CollabCall where
  | capRecordingStart
  | capRecordingStop
  | detConfigConfidence (raw : Str)
  | detConfigImgsz (raw : Str)
  | detModel (name : Str)
  | detFetchImage (raw : Str)
  deriving DecidableEq

/-- Everything after the first `':'`: Python `cmd.split(":", 1)[1]`. -/
def afterColon (s : Str) : Str := (s.dropWhile (fun c => !(c == ':'))).drop 1

/-- Result of `_handle_command`: the collaborator calls issued, and whether the
unknown-command warning was logged.  The whole body is wrapped in
`try/except`, so the dispatcher never raises; argument decoding and the HTTP
round-trips themselves are external I/O outside the model. -/
structure DispatchResult where
  calls : List CollabCall
  unknownLogged : Bool
  deriving DecidableEq

/-- The branch structure of `_handle_command`, in source order. -/
def dispatchCommand (cmd : Str) : DispatchResult :=
  if cmd = strL "REC_START" then ⟨[CollabCall.capRecordingStart], false⟩
  else if cmd = strL "REC_STOP" then ⟨[CollabCall.capRecordingStop], false⟩
  else if (strL "SET_CONF:").isPrefixOf cmd then
    ⟨[CollabCall.detConfigConfidence (afterColon cmd)], false⟩
  else if (strL "SET_IMGSZ:").isPrefixOf cmd then
    ⟨[CollabCall.detConfigImgsz (afterColon cmd)], false⟩
  else if (strL "SET_MODEL:").isPrefixOf cmd then
    ⟨[CollabCall.detModel (afterColon cmd)], false⟩
  else if (strL "GET_IMG:").isPrefixOf cmd then
    ⟨[CollabCall.detFetchImage (afterColon cmd)], false⟩
  else ⟨[], true⟩

/-- A command string matching one of the recognized command shapes. -/
def recognizedCmd (cmd : Str) : Bool :=
  cmd == strL "REC_START" || cmd == strL "REC_STOP" ||
  (strL "SET_CONF:").isPrefixOf cmd || (strL "SET_IMGSZ:").isPrefixOf cmd ||
  (strL "SET_MODEL:").isPrefixOf cmd || (strL "GET_IMG:").isPrefixOf cmd

/-! Outbound send paths and their locking discipline. -/

/-- Atomic steps of an outbound send path: serial write (`_serial_port.write`),
lock acquisition/release (`with _lock:`), and the log append inside the locked
section. -/
inductive TxAction where
  | serialWrite (payload : Str)
  | lockAcquire
  | lockRelease
  | logAppendTx (data : Str)
  deriving DecidableEq

/-- Successful-send body of `_telemetry_forward_loop` (lines 303-312): write
the line, then append the tx record under the lock. -/
def telemetryTickTx (telLine : Str) : List TxAction :=
  [TxAction.serialWrite (telLine ++ strL "\n"), TxAction.lockAcquire,
    TxAction.logAppendTx telLine, TxAction.lockRelease]

/-- Per-track send of `_detection_forward_loop` (lines 366-374). -/
def detectionTrackTx (detLine : Str) : List TxAction :=
  [TxAction.serialWrite (detLine ++ strL "\n"), TxAction.lockAcquire,
    TxAction.logAppendTx detLine, TxAction.lockRelease]

/-- Send of `_status_forward_loop` (lines 453-462). -/
def statusTickTx (stsLine : Str) : List TxAction :=
  [TxAction.serialWrite (stsLine ++ strL "\n"), TxAction.lockAcquire,
    TxAction.logAppendTx stsLine, TxAction.lockRelease]

/-- Send of the `/send` endpoint (`send_message`, lines 716-720). -/
def sendEndpointTx (text : Str) : List TxAction :=
  [TxAction.serialWrite (text ++ strL "\n"), TxAction.lockAcquire,
    TxAction.logAppendTx text, TxAction.lockRelease]

/-- Per-chunk send of `_send_track_image` (lines 228-234): a bare serial
write, no lock and no log entry. -/
def imgChunkTx (line : Str) : List TxAction := [TxAction.serialWrite line]

/-- Whether every serial write in the action list happens while the lock is
held, starting from the given lock state. -/
def writesUnderLock : List TxAction → Bool → Bool
  | [], _ => true
  | TxAction.lockAcquire :: rest, _ => writesUnderLock rest true
  | TxAction.lockRelease :: rest, _ => writesUnderLock rest false
  | TxAction.serialWrite _ :: rest, held => held && writesUnderLock rest held
  | TxAction.logAppendTx _ :: rest, held => writesUnderLock rest held

/-- Whether every log append in the action list happens while the lock is
held, starting from the given lock state. -/
def appendsUnderLock : List TxAction → Bool → Bool
  | [], _ => true
  | TxAction.lockAcquire :: rest, _ => appendsUnderLock rest true
  | TxAction.lockRelease :: rest, _ => appendsUnderLock rest false
  | TxAction.serialWrite _ :: rest, held => appendsUnderLock rest held
  | TxAction.logAppendTx _ :: rest, held => held && appendsUnderLock rest held

/-! Chunked image transfer (`_send_track_image`, lines 183-235). -/

/-- `IMG_CHUNK_BYTES = 100`: binary bytes per LoRa chunk. -/
def IMG_CHUNK_BYTES : Nat := 100

/-- `total_chunks = (len(data) + IMG_CHUNK_BYTES - 1) // IMG_CHUNK_BYTES`. -/
def imgTotalChunks (size : Nat) : Nat :=
  (size + IMG_CHUNK_BYTES - 1) / IMG_CHUNK_BYTES

/-- Uppercase hexadecimal digit for a value below sixteen. -/
def hexDigitCh (k : Nat) : Char :=
  match k with
  | 0 => '0'
  | 1 => '1'
  | 2 => '2'
  | 3 => '3'
  | 4 => '4'
  | 5 => '5'
  | 6 => '6'
  | 7 => '7'
  | 8 => '8'
  | 9 => '9'
  | 10 => 'A'
  | 11 => 'B'
  | 12 => 'C'
  | 13 => 'D'
  | 14 => 'E'
  | _ => 'F'

/-- Python `bytes.hex().upper()`: two uppercase hex characters per byte. -/
def hexUpper (bs : List Nat) : Str :=
  (bs.map (fun b => [hexDigitCh (b / 16), hexDigitCh (b % 16)])).flatten

/-- Modelled from the spec: value of one uppercase hexadecimal digit, as read
by the receiving side (which is not part of this repository).  Decimal digits
map through their ASCII offset 48, the letters `A`-`F` (codes 65-70) through
offset 55. -/
def hexDigitVal (c : Char) : Option Nat :=
  if isDigitCh c then some (charVal c)
  else if 65 ≤ c.toNat ∧ c.toNat ≤ 70 then some (c.toNat - 55)
  else none

/-- Modelled from the spec: hex-decode a chunk payload back to bytes. -/
def hexDecode : Str → Option (List Nat)
  | [] => some []
  | [_] => none
  | h :: l :: rest =>
    match hexDigitVal h, hexDigitVal l, hexDecode rest with
    | some a, some b, some r => some ((a * 16 + b) :: r)
    | _, _, _ => none

/-- One emitted `IMG:` chunk: index, declared total, hex payload. -/
structure ImgChunk where
  idx : Nat
  total : Nat
  payloadHex : Str
  deriving DecidableEq

/-- The chunk sequence emitted by `_send_track_image` (lines 225-234): for
`c` in `range(total_chunks)`, the payload is `data[c*C : min(c*C+C, len)]`
hex-encoded, each chunk declaring the same `total_chunks`. -/
def imgChunksOf (data : List Nat) : List ImgChunk :=
  (List.range (imgTotalChunks data.length)).map (fun c =>
    { idx := c, total := imgTotalChunks data.length,
      payloadHex := hexUpper ((data.drop (c * IMG_CHUNK_BYTES)).take IMG_CHUNK_BYTES) })

/-! ESP32 Wi-Fi pairing state machine (`_esp_wifi_connect_loop`, lines 490-664). -/

/-- Abstract pairing state of the spec, derived from the concrete flags.  The
source keeps no separate `Reconnecting` flag: after drift it re-enters the
association branch with credentials still cached, which this mapping reports
as `associating`. -/
inductive PairingState where
  | awaitingCredentials
  | associating
  | connected
  deriving DecidableEq

/-- Environment observed by one iteration of the Wi-Fi loop: the SSID wlan0 is
currently on, whether `nmcli ... connect` succeeded, and the assigned IP. -/
structure WifiEnv where
  currentSsid : Str
  assocOk : Bool
  assignedIp : Str
  deriving DecidableEq

/-- Pairing state read off the concrete flags (`_esp_wifi_connected`,
`_esp_ap_ssid`). -/
def pairingStateOf (st : ServiceState) : PairingState :=
  if st.wifiConnected then PairingState.connected
  else if st.apSsid = [] then PairingState.awaitingCredentials
  else PairingState.associating

/-- One iteration of `_esp_wifi_connect_loop`'s main loop.  Connected branch
(lines 521-545): on SSID drift clear the connected flag and IP and fall back
to re-association.  Waiting branch (lines 548-553): no credentials, sleep.
Association branch (lines 556-664): on `nmcli` failure or missing IP just
sleep and retry; on success record the IP and SSID and set the flag. -/
def wifiStep (st : ServiceState) (env : WifiEnv) : ServiceState :=
  if st.wifiConnected then
    if ¬ (env.currentSsid = st.wifiSsid) then
      { st with wifiConnected := false, wifiIp := [] }
    else st
  else if st.apSsid = [] then st
  else if env.assocOk = false then st
  else if env.assignedIp = [] then st
  else
    { st with wifiConnected := true, wifiIp := env.assignedIp, wifiSsid := st.apSsid }

/-! Wire encodings of the TEL/DET/STS lines.  Field values carry Python's
fixed decimal formatting exactly, so each scaled field is an integer counting
units of its last rendered decimal place (for example `lat6 = 47123456`
renders as `47.123456`). -/

/-- Structured telemetry snapshot rendered by `get_telemetry_string`
(`mavlink_service.py`, lines 204-217). -/
structure Telemetry where
  lat6 : Int
  lon6 : Int
  altRel1 : Int
  groundspeed1 : Int
  heading : Int
  voltage1 : Int
  remaining : Int
  fixType : Int
  satellites : Int
  mode : Str
  armed : Bool
  deriving DecidableEq

/-- The `TEL:` line of `get_telemetry_string`:
`lat:.6f,lon:.6f,alt_rel:.1f,groundspeed:.1f,heading,voltage:.1f,remaining,fix_type,satellites,mode,armed`. -/
def encodeTel (t : Telemetry) : Str :=
  telMarker ++
  (formatFixed t.lat6 6 ++ ',' ::
  (formatFixed t.lon6 6 ++ ',' ::
  (formatFixed t.altRel1 1 ++ ',' ::
  (formatFixed t.groundspeed1 1 ++ ',' ::
  (intToChars t.heading ++ ',' ::
  (formatFixed t.voltage1 1 ++ ',' ::
  (intToChars t.remaining ++ ',' ::
  (intToChars t.fixType ++ ',' ::
  (intToChars t.satellites ++ ',' ::
  (t.mode ++ ',' ::
  (if t.armed then strL "1" else strL "0")))))))))))

/-- Modelled from the spec: the ground-station decoder of a `TEL:` line
(`TEL:lat,lon,alt_rel,groundspeed,heading,voltage,battery_remaining,fix_type,satellites,mode,armed`);
the decoding side is not part of this repository. -/
def parseTel (s : Str) : Option Telemetry :=
  if telMarker.isPrefixOf s then
    match splitOnChar ',' (s.drop 4) with
    | [f1, f2, f3, f4, f5, f6, f7, f8, f9, f10, f11] =>
      match parseFixed 6 f1, parseFixed 6 f2, parseFixed 1 f3, parseFixed 1 f4,
          parseInt f5, parseFixed 1 f6, parseInt f7, parseInt f8, parseInt f9 with
      | some lat, some lon, some alt, some gs, some hd, some v, some rem,
          some fx, some sat =>
        if f11 = strL "1" then
          some ⟨lat, lon, alt, gs, hd, v, rem, fx, sat, f10, true⟩
        else if f11 = strL "0" then
          some ⟨lat, lon, alt, gs, hd, v, rem, fx, sat, f10, false⟩
        else none
      | _, _, _, _, _, _, _, _, _ => none
    | _ => none
  else none

/-- One active track as rendered by `_detection_forward_loop` (line 366). -/
structure Detection where
  cls : Str
  conf2 : Int
  trackId : Int
  lat6 : Int
  lon6 : Int
  alt1 : Int
  deriving DecidableEq

/-- The `DET:` line: `DET:cls,conf:.2f,tid,lat:.6f,lon:.6f,alt:.1f`. -/
def encodeDet (d : Detection) : Str :=
  strL "DET:" ++
  (d.cls ++ ',' ::
  (formatFixed d.conf2 2 ++ ',' ::
  (intToChars d.trackId ++ ',' ::
  (formatFixed d.lat6 6 ++ ',' ::
  (formatFixed d.lon6 6 ++ ',' ::
  formatFixed d.alt1 1)))))

/-- Modelled from the spec: the ground-station decoder of a `DET:` line
(`DET:class,confidence,track_id,lat,lon,alt`). -/
def parseDet (s : Str) : Option Detection :=
  if (strL "DET:").isPrefixOf s then
    match splitOnChar ',' (s.drop 4) with
    | [f1, f2, f3, f4, f5, f6] =>
      match parseFixed 2 f2, parseInt f3, parseFixed 6 f4, parseFixed 6 f5,
          parseFixed 1 f6 with
      | some conf, some tid, some lat, some lon, some alt =>
        some ⟨f1, conf, tid, lat, lon, alt⟩
      | _, _, _, _, _ => none
    | _ => none
  else none

/-- System status snapshot rendered by `_status_forward_loop` (line 453). -/
structure Status where
  recording : Bool
  fps1 : Int
  tracks : Int
  model : Str
  conf2 : Int
  imgsz : Int
  infMs0 : Int
  cpuTemp1 : Int
  deriving DecidableEq

/-- The `STS:` line:
`STS:rec(0|1),fps:.1f,tracks,model,conf:.2f,imgsz,inf_ms:.0f,cpu_temp:.1f`. -/
def encodeSts (s : Status) : Str :=
  strL "STS:" ++
  ((if s.recording then strL "1" else strL "0") ++ ',' ::
  (formatFixed s.fps1 1 ++ ',' ::
  (intToChars s.tracks ++ ',' ::
  (s.model ++ ',' ::
  (formatFixed s.conf2 2 ++ ',' ::
  (intToChars s.imgsz ++ ',' ::
  (formatFixed s.infMs0 0 ++ ',' ::
  formatFixed s.cpuTemp1 1)))))))

/-- Modelled from the spec: the ground-station decoder of an `STS:` line
(`STS:recording(0|1),fps,active_tracks,model_name,confidence,image_size,inference_ms,cpu_temp`). -/
def parseSts (s : Str) : Option Status :=
  if (strL "STS:").isPrefixOf s then
    match splitOnChar ',' (s.drop 4) with
    | [f1, f2, f3, f4, f5, f6, f7, f8] =>
      match parseFixed 1 f2, parseInt f3, parseFixed 2 f5, parseInt f6,
          parseFixed 0 f7, parseFixed 1 f8 with
      | some fps, some tracks, some conf, some imgsz, some infMs, some temp =>
        if f1 = strL "1" then
          some ⟨true, fps, tracks, f4, conf, imgsz, infMs, temp⟩
        else if f1 = strL "0" then
          some ⟨false, fps, tracks, f4, conf, imgsz, infMs, temp⟩
        else none
      | _, _, _, _, _, _ => none
    | _ => none
  else none

/-! Claim C1: ordering of log append versus command dispatch. -/

/-- Recognizer for log-append events. -/
def isAppendEv : Event → Bool
  | Event.logAppend _ => true
  | _ => false

/-- The ordering property asserted by the spec for one handled line: no
dispatch side effect occurs anywhere before a log append in the trace. -/
def appendsBeforeEffects (tr : List Event) : Prop :=
  ∀ (pre mid post : List Event) (c : Str) (m : RxMsg),
    tr = pre ++ Event.dispatchCmd c :: mid ++ Event.logAppend m :: post → False

/-- C1 counterexample: for the received line `CMD:REC_START` the serial loop
dispatches the command (line 157) before appending the message to the log
(lines 166-169), so the append does not precede the side effect. -/
theorem C1_claim_counterexample :
    ¬ appendsBeforeEffects (processLine (strL "CMD:REC_START")) := by
  intro h
  exact h [] [] [] (strL "REC_START")
    { data := strL "CMD:REC_START", type? := some MsgType.command, rssi := none }
    (by decide)

/-- C1 amended: for every received line the serial loop appends exactly one
message to the log, as the final event of the trace; every side effect of the
line (command dispatch, credential write) runs before the append, and since
`_handle_command` swallows all exceptions the append also runs when the side
effect fails. -/
theorem C1_amended_append_last (line : Str) :
    ∃ effects : List Event,
      processLine line = effects ++ [Event.logAppend (classifyMsg line)] ∧
      ∀ e ∈ effects, isAppendEv e = false := by
  refine ⟨(match dispatchOf line with
           | some cmd => [Event.dispatchCmd cmd]
           | none => []) ++
          (match credsOf line with
           | some (ssid, pw) => [Event.setCreds ssid pw]
           | none => []), ?_, ?_⟩
  · simp [processLine, List.append_assoc]
  · intro e he
    rcases List.mem_append.mp he with h | h
    · cases hd : dispatchOf line <;> rw [hd] at h
      · simp at h
      · simp at h
        subst h
        rfl
    · cases hc : credsOf line with
      | none =>
        rw [hc] at h
        simp at h
      | some p =>
        rw [hc] at h
        cases p
        simp at h
        subst h
        rfl

/-! Claim C2: link state after a mid-stream read failure. -/

/-- A connected bridge state with an empty log, used as the concrete input. -/
def sampleConnectedState : ServiceState :=
  { connected := true, messages := [], apSsid := [], apPassword := [],
    wifiConnected := false, wifiSsid := [], wifiIp := [] }

/-- C2 counterexample: a read error in `_serial_loop` (lines 174-176) only
logs and sleeps; the connected flag is not cleared, so `isConnected` keeps
reporting connected, contrary to the claim. -/
theorem C2_claim_counterexample :
    ¬ ((serialIter sampleConnectedState ReadOutcome.readError).connected = false) := by
  decide

/-- Effect application never changes the connected flag. -/
theorem applyEvent_connected (st : ServiceState) (e : Event) :
    (applyEvent st e).connected = st.connected := by
  cases e <;> rfl

/-- Folding serial-loop events never changes the connected flag. -/
theorem foldl_applyEvent_connected (evs : List Event) :
    ∀ st : ServiceState, (evs.foldl applyEvent st).connected = st.connected := by
  induction evs with
  | nil => intro st; rfl
  | cons e rest ih =>
    intro st
    rw [List.foldl_cons, ih, applyEvent_connected]

/-- C2 amended: no iteration of `_serial_loop`'s read loop ever changes the
connected flag after the connection is established; in particular a read
error leaves the whole state unchanged (the loop logs the error, sleeps one
second and retries), so `isConnected` keeps reporting the old value rather
than turning Disconnected. -/
theorem C2_amended_read_error_keeps_state (st : ServiceState) (r : ReadOutcome) :
    (serialIter st r).connected = st.connected ∧
    serialIter st ReadOutcome.readError = st := by
  refine ⟨?_, rfl⟩
  cases r with
  | noData => rfl
  | emptyLine => rfl
  | readError => rfl
  | line s => exact foldl_applyEvent_connected _ st

/-! Claim C3: locking discipline of the outbound send paths. -/

/-- C3 counterexample: the telemetry forwarder's serial write (line 305) is
performed before `with _lock:` is entered (lines 306-312), so the write does
not happen under the lock, contrary to the claimed exclusive write lock. -/
theorem C3_claim_counterexample :
    writesUnderLock (telemetryTickTx (strL "TEL:0.0,0.0")) false = false := by
  rfl

/-- C3 amended: in every outbound send path (telemetry, detection, status,
`/send` endpoint, image chunks) the serial write happens while the shared
lock is not held; the lock only guards the message-log append that follows
the write, so whole-line exclusivity on the wire is not enforced by any
write lock. -/
theorem C3_amended_writes_outside_lock (a b c d e : Str) :
    writesUnderLock (telemetryTickTx a) false = false ∧
    writesUnderLock (detectionTrackTx b) false = false ∧
    writesUnderLock (statusTickTx c) false = false ∧
    writesUnderLock (sendEndpointTx d) false = false ∧
    writesUnderLock (imgChunkTx e) false = false ∧
    appendsUnderLock (telemetryTickTx a) false = true ∧
    appendsUnderLock (detectionTrackTx b) false = true ∧
    appendsUnderLock (statusTickTx c) false = true ∧
    appendsUnderLock (sendEndpointTx d) false = true ∧
    appendsUnderLock (imgChunkTx e) false = true :=
  ⟨rfl, rfl, rfl, rfl, rfl, rfl, rfl, rfl, rfl, rfl⟩

/-! Claim C5: bounded message log. -/

/-- C5: inserting into a log holding exactly `_MAX_MSG` entries triggers a
single eviction of the oldest `_MAX_MSG // 2` entries (one `del`, never
repeated one-at-a-time evictions), leaving the log at `_MAX_MSG // 2 + 1`
entries, within capacity. -/
theorem C5_log_capacity {α : Type} (l : List α) (m : α) (h : l.length = MAX_MSG) :
    appendMessage l m = (l ++ [m]).drop (MAX_MSG / 2) ∧
    (appendMessage l m).length ≤ MAX_MSG ∧
    (appendMessage l m).length = MAX_MSG / 2 + 1 := by
  have hlen : (l ++ [m]).length = MAX_MSG + 1 := by
    simp [h]
  have hover : MAX_MSG < (l ++ [m]).length := by omega
  have he : appendMessage l m = (l ++ [m]).drop (MAX_MSG / 2) := by
    show (if MAX_MSG < (l ++ [m]).length then (l ++ [m]).drop (MAX_MSG / 2)
          else l ++ [m]) = (l ++ [m]).drop (MAX_MSG / 2)
    rw [if_pos hover]
  have hM : MAX_MSG = 1000 := rfl
  refine ⟨he, ?_, ?_⟩
  · rw [he, List.length_drop, hlen]
    omega
  · rw [he, List.length_drop, hlen]
    omega

/-- C5 witness at a concrete full log. -/
theorem C5_log_capacity_witness :
    (List.replicate MAX_MSG 0).length = MAX_MSG ∧
    (appendMessage (List.replicate MAX_MSG 0) 0).length ≤ MAX_MSG :=
  ⟨by simp, (C5_log_capacity (List.replicate MAX_MSG 0) 0 (by simp)).2.1⟩

/-! Claim C7: unknown commands. -/

/-- C7: a command string matching none of the recognized shapes takes the
final `else` branch of `_handle_command`: the unknown-command warning is
logged, no collaborator call is made, nothing is raised (the dispatcher is a
total function), and the bridge state — in particular the connected flag and
the derived pairing state — is untouched. -/
theorem C7_unknown_command (cmd : Str) (h : recognizedCmd cmd = false) :
    dispatchCommand cmd = { calls := [], unknownLogged := true } ∧
    (∀ st : ServiceState, applyEvent st (Event.dispatchCmd cmd) = st) ∧
    (∀ st : ServiceState,
      (applyEvent st (Event.dispatchCmd cmd)).connected = st.connected ∧
      pairingStateOf (applyEvent st (Event.dispatchCmd cmd)) = pairingStateOf st) := by
  simp only [recognizedCmd, Bool.or_eq_false_iff, beq_eq_false_iff_ne, ne_eq] at h
  obtain ⟨⟨⟨⟨⟨h1, h2⟩, h3⟩, h4⟩, h5⟩, h6⟩ := h
  refine ⟨?_, fun st => rfl, fun st => ⟨rfl, rfl⟩⟩
  simp only [dispatchCommand, if_neg h1, if_neg h2]
  rw [if_neg (by simp [h3]), if_neg (by simp [h4]), if_neg (by simp [h5]),
    if_neg (by simp [h6])]

/-- C7 witness at the spec's example command `CMD:FOO_BAR`. -/
theorem C7_unknown_command_witness :
    recognizedCmd (strL "FOO_BAR") = false ∧
    dispatchCommand (strL "FOO_BAR") = { calls := [], unknownLogged := true } :=
  ⟨by decide, (C7_unknown_command (strL "FOO_BAR") (by decide)).1⟩

/-! Claim C10: the message-history query. -/

/-- C10: `/messages` returns `_messages[-100:]`: exactly the suffix of length
`min 100 (length)` of the log in insertion order, while the log itself is
kept at up to `_MAX_MSG = 1000` entries by `appendMessage`. -/
theorem C10_messages_query (α : Type) :
    (∀ l : List α, (getMessages l).length = min 100 l.length ∧
      l.take (l.length - 100) ++ getMessages l = l) ∧
    MAX_MSG = 1000 ∧
    (∀ (l : List α) (m : α), l.length ≤ MAX_MSG →
      (appendMessage l m).length ≤ MAX_MSG) := by
  refine ⟨fun l => ⟨?_, ?_⟩, rfl, fun l m h => ?_⟩
  · rw [getMessages, List.length_drop]
    omega
  · exact List.take_append_drop _ l
  · have hM : MAX_MSG = 1000 := rfl
    have hl2 : (l ++ [m]).length = l.length + 1 := by simp
    by_cases hover : MAX_MSG < (l ++ [m]).length
    · have he : appendMessage l m = (l ++ [m]).drop (MAX_MSG / 2) := by
        show (if MAX_MSG < (l ++ [m]).length then (l ++ [m]).drop (MAX_MSG / 2)
              else l ++ [m]) = (l ++ [m]).drop (MAX_MSG / 2)
        rw [if_pos hover]
      rw [he, List.length_drop]
      omega
    · have he : appendMessage l m = l ++ [m] := by
        show (if MAX_MSG < (l ++ [m]).length then (l ++ [m]).drop (MAX_MSG / 2)
              else l ++ [m]) = l ++ [m]
        rw [if_neg hover]
      rw [he]
      omega

/-- C10 witness: the capacity bound applied at a concrete log. -/
theorem C10_messages_query_witness :
    (List.replicate 5 0).length ≤ MAX_MSG ∧
    (appendMessage (List.replicate 5 (0 : Nat)) 0).length ≤ MAX_MSG :=
  ⟨by decide, (C10_messages_query Nat).2.2 (List.replicate 5 0) 0 (by decide)⟩

/-! Claim C4: chunked image transfer. -/

theorem hexDigitVal_hexDigitCh (k : Nat) (hk : k < 16) :
    hexDigitVal (hexDigitCh k) = some k := by
  interval_cases k <;> decide

theorem hexDecode_cons (h l : Char) (rest : Str) :
    hexDecode (h :: l :: rest) =
      match hexDigitVal h, hexDigitVal l, hexDecode rest with
      | some a, some b, some r => some ((a * 16 + b) :: r)
      | _, _, _ => none := rfl

theorem hexDecode_hexUpper (bs : List Nat) (h : ∀ b ∈ bs, b < 256) :
    hexDecode (hexUpper bs) = some bs := by
  induction bs with
  | nil => rfl
  | cons b t ih =>
    have hb : b < 256 := h b (List.mem_cons_self _ _)
    have ht := ih (fun x hx => h x (List.mem_cons_of_mem _ hx))
    have h1 : b / 16 < 16 := by omega
    have h2 : b % 16 < 16 := by omega
    have hu : hexUpper (b :: t) =
        hexDigitCh (b / 16) :: hexDigitCh (b % 16) :: hexUpper t := by
      simp [hexUpper]
    rw [hu, hexDecode_cons, hexDigitVal_hexDigitCh _ h1, hexDigitVal_hexDigitCh _ h2, ht]
    have hv : b / 16 * 16 + b % 16 = b := by omega
    show some ((b / 16 * 16 + b % 16) :: t) = some (b :: t)
    rw [hv]

/-- Joining the raw (pre-hex) chunks in index order reproduces the data. -/
theorem imgChunks_flatten_raw :
    ∀ (N : Nat) (data : List Nat), data.length ≤ N →
      ((List.range (imgTotalChunks data.length)).map
        (fun c => (data.drop (c * IMG_CHUNK_BYTES)).take IMG_CHUNK_BYTES)).flatten
        = data := by
  have hCB : IMG_CHUNK_BYTES = 100 := rfl
  intro N
  induction N with
  | zero =>
    intro data h
    have h0 : data = [] := List.length_eq_zero.mp (by omega)
    subst h0
    rfl
  | succ N ih =>
    intro data h
    cases hdata : data with
    | nil => rfl
    | cons x xs =>
      subst hdata
      have hlen : 0 < (x :: xs).length := by simp
      obtain ⟨m, hm⟩ : ∃ m, imgTotalChunks (x :: xs).length = m + 1 := by
        refine ⟨imgTotalChunks (x :: xs).length - 1, ?_⟩
        have : 0 < imgTotalChunks (x :: xs).length := by
          rw [imgTotalChunks, hCB]
          omega
        omega
      rw [hm, List.range_succ_eq_map, List.map_cons, List.flatten_cons,
        List.map_map]
      have hfun : ((fun c => (((x :: xs).drop (c * IMG_CHUNK_BYTES)).take
            IMG_CHUNK_BYTES)) ∘ Nat.succ) =
          (fun c => ((((x :: xs).drop IMG_CHUNK_BYTES).drop
            (c * IMG_CHUNK_BYTES)).take IMG_CHUNK_BYTES)) := by
        funext c
        simp only [Function.comp_apply, List.drop_drop]
        congr 2
        rw [hCB]
        omega
      rw [hfun]
      have hm2 : m = imgTotalChunks ((x :: xs).drop IMG_CHUNK_BYTES).length := by
        have hd : ((x :: xs).drop IMG_CHUNK_BYTES).length =
            (x :: xs).length - IMG_CHUNK_BYTES := List.length_drop _ _
        have hm3 : ((x :: xs).length + IMG_CHUNK_BYTES - 1) / IMG_CHUNK_BYTES
            = m + 1 := hm
        rw [imgTotalChunks, hd, hCB]
        rw [hCB] at hm3
        omega
      have hrec : ((List.range m).map
          (fun c => ((((x :: xs).drop IMG_CHUNK_BYTES).drop
            (c * IMG_CHUNK_BYTES)).take IMG_CHUNK_BYTES))).flatten =
          (x :: xs).drop IMG_CHUNK_BYTES := by
        rw [hm2]
        apply ih
        have hd : ((x :: xs).drop IMG_CHUNK_BYTES).length =
            (x :: xs).length - IMG_CHUNK_BYTES := List.length_drop _ _
        rw [hd, hCB]
        have : (x :: xs).length ≤ N + 1 := h
        omega
      rw [hrec]
      simp [List.take_append_drop]

/-- C4: for a nonempty compressed payload of `S` bytes, `_send_track_image`
emits exactly `ceil(S / C)` chunks (`C = IMG_CHUNK_BYTES`, characterized by
`S ≤ total * C` and `(total - 1) * C < S`); the chunks carry indices
`0 .. total-1` in order, each declares the same total, and hex-decoding the
payloads and concatenating them in index order reproduces the original
bytes. -/
theorem C4_image_chunking (data : List Nat) (hpos : 0 < data.length)
    (hbytes : ∀ b ∈ data, b < 256) :
    (imgChunksOf data).length = imgTotalChunks data.length ∧
    data.length ≤ imgTotalChunks data.length * IMG_CHUNK_BYTES ∧
    (imgTotalChunks data.length - 1) * IMG_CHUNK_BYTES < data.length ∧
    (∀ ch ∈ imgChunksOf data, ch.total = imgTotalChunks data.length) ∧
    (imgChunksOf data).map ImgChunk.idx = List.range (imgTotalChunks data.length) ∧
    ((imgChunksOf data).map
      (fun ch => (hexDecode ch.payloadHex).getD [])).flatten = data := by
  have hCB : IMG_CHUNK_BYTES = 100 := rfl
  have hT : imgTotalChunks data.length = (data.length + 99) / 100 := by
    rw [imgTotalChunks, hCB]
    omega
  refine ⟨?_, ?_, ?_, ?_, ?_, ?_⟩
  · simp [imgChunksOf]
  · rw [hT, hCB]
    omega
  · rw [hT, hCB]
    omega
  · intro ch hch
    simp only [imgChunksOf, List.mem_map] at hch
    obtain ⟨c, _, rfl⟩ := hch
    rfl
  · rw [imgChunksOf, List.map_map]
    have hcomp : (ImgChunk.idx ∘ fun c =>
        ({ idx := c, total := imgTotalChunks data.length,
           payloadHex := hexUpper ((data.drop (c * IMG_CHUNK_BYTES)).take
             IMG_CHUNK_BYTES) } : ImgChunk)) = id := by
      funext c
      rfl
    rw [hcomp, List.map_id]
  · have hdec : ∀ c : Nat,
        (hexDecode (hexUpper ((data.drop (c * IMG_CHUNK_BYTES)).take
          IMG_CHUNK_BYTES))).getD [] =
        (data.drop (c * IMG_CHUNK_BYTES)).take IMG_CHUNK_BYTES := by
      intro c
      rw [hexDecode_hexUpper]
      · rfl
      · intro b hb
        exact hbytes b (List.drop_subset _ _ (List.take_subset _ _ hb))
    calc ((imgChunksOf data).map
        (fun ch => (hexDecode ch.payloadHex).getD [])).flatten
        = ((List.range (imgTotalChunks data.length)).map
            (fun c => (data.drop (c * IMG_CHUNK_BYTES)).take
              IMG_CHUNK_BYTES)).flatten := by
          rw [imgChunksOf, List.map_map]
          have hcomp2 : ((fun ch => (hexDecode ch.payloadHex).getD []) ∘ fun c =>
              ({ idx := c, total := imgTotalChunks data.length,
                 payloadHex := hexUpper ((data.drop (c * IMG_CHUNK_BYTES)).take
                   IMG_CHUNK_BYTES) } : ImgChunk)) =
              (fun c => (data.drop (c * IMG_CHUNK_BYTES)).take IMG_CHUNK_BYTES) := by
            funext c
            exact hdec c
          rw [hcomp2]
      _ = data := imgChunks_flatten_raw data.length data le_rfl

/-- C4 witness at a concrete 250-byte payload (three chunks of 100, 100, 50). -/
theorem C4_image_chunking_witness :
    (0 < (List.replicate 250 7).length ∧ ∀ b ∈ List.replicate 250 7, b < 256) ∧
    ((imgChunksOf (List.replicate 250 7)).map
      (fun ch => (hexDecode ch.payloadHex).getD [])).flatten =
      List.replicate 250 7 :=
  ⟨⟨by rw [List.length_replicate]; norm_num,
      fun b hb => by rw [List.eq_of_mem_replicate hb]; norm_num⟩,
    (C4_image_chunking (List.replicate 250 7)
      (by rw [List.length_replicate]; norm_num)
      (fun b hb => by rw [List.eq_of_mem_replicate hb]; norm_num)).2.2.2.2.2⟩

/-! Claim C6: classifier rule order. -/

/-- C6: the serial loop assigns exactly one type per line, evaluating the
rules in source order — a line containing `"TEL:"` is `telemetry_rx` (and is
neither dispatched nor parsed for credentials); otherwise a line starting
with `"CMD:"` is `command` and its stripped remainder (after the 4-character
marker) goes to the dispatcher; otherwise a line starting with `"AP:"` is
`ap_info` and its comma-split remainder yields the `APCredentials` pair when
at least two parts are present; otherwise the message carries no tag, the
source's encoding of `generic`.  The RSSI attachment is computed from the
line alone (before tagging, lines 143-148), hence identical under every
classified type. -/
theorem C6_classifier_rules (line : Str) :
    ((containsSub telMarker line = true →
      (classifyMsg line).type? = some MsgType.telemetryRx ∧
      dispatchOf line = none ∧ credsOf line = none) ∧
     (containsSub telMarker line = false → cmdMarker.isPrefixOf line = true →
      (classifyMsg line).type? = some MsgType.command ∧
      dispatchOf line = some (pyStrip (line.drop 4)) ∧ credsOf line = none) ∧
     (containsSub telMarker line = false → cmdMarker.isPrefixOf line = false →
      apMarker.isPrefixOf line = true →
      (classifyMsg line).type? = some MsgType.apInfo ∧ dispatchOf line = none ∧
      (∀ p0 p1 rest, splitOnChar ',' (line.drop 3) = p0 :: p1 :: rest →
        credsOf line = some (p0, p1))) ∧
     (containsSub telMarker line = false → cmdMarker.isPrefixOf line = false →
      apMarker.isPrefixOf line = false →
      (classifyMsg line).type? = none ∧ dispatchOf line = none ∧
      credsOf line = none)) ∧
    (classifyMsg line).rssi = rssiOf line := by
  refine ⟨⟨?_, ?_, ?_, ?_⟩, rfl⟩
  · intro h1
    have ht : msgTypeOf line = some MsgType.telemetryRx := by
      simp [msgTypeOf, h1]
    exact ⟨ht, by simp [dispatchOf, ht], by simp [credsOf, ht]⟩
  · intro h1 h2
    have ht : msgTypeOf line = some MsgType.command := by
      simp [msgTypeOf, h1, h2]
    exact ⟨ht, by simp [dispatchOf, ht], by simp [credsOf, ht]⟩
  · intro h1 h2 h3
    have ht : msgTypeOf line = some MsgType.apInfo := by
      simp [msgTypeOf, h1, h2, h3]
    refine ⟨ht, by simp [dispatchOf, ht], ?_⟩
    intro p0 p1 rest hsplit
    simp [credsOf, ht, hsplit]
  · intro h1 h2 h3
    have ht : msgTypeOf line = none := by
      simp [msgTypeOf, h1, h2, h3]
    exact ⟨ht, by simp [dispatchOf, ht], by simp [credsOf, ht]⟩

/-- C6 witness at a command line carrying an RSSI suffix: it is classified
`command`, dispatched stripped, and the RSSI value is attached. -/
theorem C6_classifier_rules_witness :
    (containsSub telMarker (strL "CMD:REC_STOP RSSI:-33") = false ∧
     cmdMarker.isPrefixOf (strL "CMD:REC_STOP RSSI:-33") = true) ∧
    ((classifyMsg (strL "CMD:REC_STOP RSSI:-33")).type? = some MsgType.command ∧
     dispatchOf (strL "CMD:REC_STOP RSSI:-33") =
       some (pyStrip ((strL "CMD:REC_STOP RSSI:-33").drop 4)) ∧
     credsOf (strL "CMD:REC_STOP RSSI:-33") = none) ∧
    (classifyMsg (strL "CMD:REC_STOP RSSI:-33")).rssi = some (-33) :=
  ⟨⟨by decide, by decide⟩,
    (C6_classifier_rules (strL "CMD:REC_STOP RSSI:-33")).1.2.1 (by decide) (by decide),
    by decide⟩

/-! Claim C8: the pairing state machine never reverts to AwaitingCredentials. -/

/-- The Wi-Fi loop never modifies the cached AP credentials (only the serial
loop writes them, on receipt of an `AP:` line). -/
theorem wifiStep_apSsid (st : ServiceState) (env : WifiEnv) :
    (wifiStep st env).apSsid = st.apSsid := by
  by_cases h1 : st.wifiConnected
  · by_cases h2 : ¬ (env.currentSsid = st.wifiSsid) <;> simp [wifiStep, h1, h2]
  · by_cases h2 : st.apSsid = []
    · simp [wifiStep, h1, h2]
    · by_cases h3 : env.assocOk = false
      · simp [wifiStep, h1, h2, h3]
      · by_cases h4 : env.assignedIp = []
        · simp [wifiStep, h1, h2, h3, h4]
        · simp [wifiStep, h1, h2, h3, h4]

theorem foldl_wifiStep_apSsid (envs : List WifiEnv) :
    ∀ st : ServiceState, (envs.foldl wifiStep st).apSsid = st.apSsid := by
  induction envs with
  | nil => intro st; rfl
  | cons env rest ih =>
    intro st
    rw [List.foldl_cons, ih, wifiStep_apSsid]

/-- C8: once AP credentials are cached (nonempty SSID), any number of
iterations of `_esp_wifi_connect_loop` leaves them cached and the derived
pairing state never returns to AwaitingCredentials; a failed association
attempt leaves the state unchanged entirely (the loop sleeps and retries),
keeping it in the associating/reconnecting condition. -/
theorem C8_pairing_no_revert (st : ServiceState) (envs : List WifiEnv)
    (h : st.apSsid ≠ []) :
    (envs.foldl wifiStep st).apSsid = st.apSsid ∧
    pairingStateOf (envs.foldl wifiStep st) ≠ PairingState.awaitingCredentials ∧
    (∀ env : WifiEnv, st.wifiConnected = false → env.assocOk = false →
      wifiStep st env = st) := by
  have hpres := foldl_wifiStep_apSsid envs st
  refine ⟨hpres, ?_, ?_⟩
  · have hne : (envs.foldl wifiStep st).apSsid ≠ [] := by
      rw [hpres]; exact h
    by_cases hc : (envs.foldl wifiStep st).wifiConnected
    · simp [pairingStateOf, hc]
    · simp [pairingStateOf, hc, hne]
  · intro env hcon hfail
    simp [wifiStep, hcon, h, hfail]

/-- A state with cached AP credentials and no Wi-Fi association yet. -/
def credsCachedState : ServiceState :=
  { connected := true, messages := [], apSsid := strL "esp-ap",
    apPassword := strL "pw", wifiConnected := false, wifiSsid := [], wifiIp := [] }

/-- C8 witness: concrete credentials cached, one failed association followed
by one successful one; the machine never passes AwaitingCredentials. -/
theorem C8_pairing_no_revert_witness :
    credsCachedState.apSsid ≠ [] ∧
    pairingStateOf (([⟨[], false, []⟩,
      ⟨[], true, strL "192.168.4.2"⟩] : List WifiEnv).foldl wifiStep
        credsCachedState) ≠ PairingState.awaitingCredentials :=
  ⟨by decide,
    (C8_pairing_no_revert credsCachedState
      [⟨[], false, []⟩, ⟨[], true, strL "192.168.4.2"⟩] (by decide)).2.1⟩

/-! Claim C9: wire-line round trips. -/

theorem drop_len_append (a b : Str) : (a ++ b).drop a.length = b := by
  induction a with
  | nil => rfl
  | cons c t ih =>
    simp only [List.cons_append, List.length_cons, List.drop_succ_cons]
    exact ih

theorem drop_four (a b : Str) (h : a.length = 4) : (a ++ b).drop 4 = b := by
  rw [← h]
  exact drop_len_append a b

theorem isPrefixOf_append_left (a b : Str) : a.isPrefixOf (a ++ b) = true := by
  induction a with
  | nil => cases b <;> rfl
  | cons c t ih => simp [List.isPrefixOf, ih]

theorem parseTel_encodeTel (t : Telemetry) (hm : ',' ∉ t.mode) :
    parseTel (encodeTel t) = some t := by
  obtain ⟨lat, lon, alt, gs, hd, v, rem, fx, sat, mode, armed⟩ := t
  have hmode : ∀ c ∈ mode, c ≠ ',' := fun c hc he => hm (he ▸ hc)
  cases armed <;>
  · simp only [encodeTel, parseTel, Bool.false_eq_true, if_false, if_true]
    rw [if_pos (isPrefixOf_append_left telMarker _)]
    rw [drop_four telMarker _ rfl]
    rw [splitOnChar_append ',' _ _ (formatFixed_no_comma lat 6),
      splitOnChar_append ',' _ _ (formatFixed_no_comma lon 6),
      splitOnChar_append ',' _ _ (formatFixed_no_comma alt 1),
      splitOnChar_append ',' _ _ (formatFixed_no_comma gs 1),
      splitOnChar_append ',' _ _ (intToChars_no_comma hd),
      splitOnChar_append ',' _ _ (formatFixed_no_comma v 1),
      splitOnChar_append ',' _ _ (intToChars_no_comma rem),
      splitOnChar_append ',' _ _ (intToChars_no_comma fx),
      splitOnChar_append ',' _ _ (intToChars_no_comma sat),
      splitOnChar_append ',' _ _ hmode,
      splitOnChar_of_not_mem ',' _ (by decide)]
    simp only [parseFixed_formatFixed, parseInt_intToChars]
    have h01 : ¬ (strL "0" = strL "1") := by decide
    simp [h01]

theorem parseDet_encodeDet (d : Detection) (hc : ',' ∉ d.cls) :
    parseDet (encodeDet d) = some d := by
  obtain ⟨cls, conf, tid, lat, lon, alt⟩ := d
  have hcls : ∀ c ∈ cls, c ≠ ',' := fun c hcm he => hc (he ▸ hcm)
  simp only [encodeDet, parseDet]
  rw [if_pos (isPrefixOf_append_left (strL "DET:") _)]
  rw [drop_four (strL "DET:") _ rfl]
  rw [splitOnChar_append ',' _ _ hcls,
    splitOnChar_append ',' _ _ (formatFixed_no_comma conf 2),
    splitOnChar_append ',' _ _ (intToChars_no_comma tid),
    splitOnChar_append ',' _ _ (formatFixed_no_comma lat 6),
    splitOnChar_append ',' _ _ (formatFixed_no_comma lon 6),
    splitOnChar_of_not_mem ',' _ (fun c hcm => (formatFixed_no_comma alt 1) c hcm)]
  simp only [parseFixed_formatFixed, parseInt_intToChars]

theorem parseSts_encodeSts (s : Status) (hm : ',' ∉ s.model) :
    parseSts (encodeSts s) = some s := by
  obtain ⟨rec, fps, tracks, model, conf, imgsz, infMs, temp⟩ := s
  have hmodel : ∀ c ∈ model, c ≠ ',' := fun c hc he => hm (he ▸ hc)
  cases rec <;>
  · simp only [encodeSts, parseSts, Bool.false_eq_true, if_false, if_true]
    rw [if_pos (isPrefixOf_append_left (strL "STS:") _)]
    rw [drop_four (strL "STS:") _ rfl]
    rw [splitOnChar_append ',' _ _ (by decide),
      splitOnChar_append ',' _ _ (formatFixed_no_comma fps 1),
      splitOnChar_append ',' _ _ (intToChars_no_comma tracks),
      splitOnChar_append ',' _ _ hmodel,
      splitOnChar_append ',' _ _ (formatFixed_no_comma conf 2),
      splitOnChar_append ',' _ _ (intToChars_no_comma imgsz),
      splitOnChar_append ',' _ _ (formatFixed_no_comma infMs 0),
      splitOnChar_of_not_mem ',' _ (fun c hcm => (formatFixed_no_comma temp 1) c hcm)]
    simp only [parseFixed_formatFixed, parseInt_intToChars]
    have h01 : ¬ (strL "0" = strL "1") := by decide
    simp [h01]

/-- C9: encoding a telemetry snapshot as its `TEL:` line and parsing the line
back recovers every field exactly at the documented precision (latitude and
longitude at 6 decimals, relative altitude, groundspeed and voltage at 1,
integer fields and the mode string verbatim), and likewise every field of the
`DET:` and `STS:` lines round-trips at its fixed formatted precision; the
text fields must be comma-free, as the comma is the field separator. -/
theorem C9_line_roundtrip (t : Telemetry) (d : Detection) (s : Status) :
    (',' ∉ t.mode → parseTel (encodeTel t) = some t) ∧
    (',' ∉ d.cls → parseDet (encodeDet d) = some d) ∧
    (',' ∉ s.model → parseSts (encodeSts s) = some s) :=
  ⟨parseTel_encodeTel t, parseDet_encodeDet d, parseSts_encodeSts s⟩

/-- Sample telemetry from the spec's example (`TEL:47.123456,8.123456,12.3,...`). -/
def sampleTel : Telemetry :=
  ⟨47123456, 8123456, 123, 56, 270, 124, 87, 3, 12, strL "LOITER", true⟩

/-- Sample detection with negative coordinates. -/
def sampleDet : Detection := ⟨strL "person", 92, 7, -47123456, -8123456, -123⟩

/-- Sample status with the unavailable-thermal sentinel `-1.0`. -/
def sampleSts : Status := ⟨true, 125, 3, strL "yolov8n.pt", 50, 640, 87, -10⟩

/-- C9 witness at representative concrete field values. -/
theorem C9_line_roundtrip_witness :
    (',' ∉ sampleTel.mode ∧ parseTel (encodeTel sampleTel) = some sampleTel) ∧
    (',' ∉ sampleDet.cls ∧ parseDet (encodeDet sampleDet) = some sampleDet) ∧
    (',' ∉ sampleSts.model ∧ parseSts (encodeSts sampleSts) = some sampleSts) :=
  ⟨⟨by decide, (C9_line_roundtrip sampleTel sampleDet sampleSts).1 (by decide)⟩,
    ⟨by decide, (C9_line_roundtrip sampleTel sampleDet sampleSts).2.1 (by decide)⟩,
    ⟨by decide, (C9_line_roundtrip sampleTel sampleDet sampleSts).2.2 (by decide)⟩⟩

end DCBridge
